import Mathlib

/-!
Verification of the Mukon messenger core against its specification.

The development shallowly embeds the two source files of the repository:

* `encrypted-ixs/src/lib.rs` — the oblivious contact circuit
  (`is_accepted_contact`, `count_accepted` over a fixed-capacity
  `ContactList`);
* `programs/mukon-messenger/src/lib.rs` — the dual-sided relationship
  state machine (`invite` / `accept` / `reject` / `block` / `unblock`),
  the deterministic chat hash `get_chat_hash` (SHA-256 over the ordered
  pair of identities), and the group registry
  (`create_group`, `update_group`, `invite_to_group`,
  `accept_group_invite`, `reject_group_invite`, `leave_group`,
  `kick_member`).

Machine integers are modelled as `Nat` with explicit reduction modulo
`2 ^ 32` where the source uses wrapping 32-bit arithmetic (inside
SHA-256).  Byte strings (`Pubkey`, hashes, names) are lists of `Nat`.
Fallible instructions return `Except ErrorCode α`; the host runtime
(Solana/Anchor) discards every account write of an instruction that
returns an error, which the model captures by `commitE`: the committed
state of a failed call is the pre-call state.
-/

namespace Mukon

/-- Identities (Solana `Pubkey`s) are 32-byte strings, modelled as lists
of byte values. -/
abbrev Identity := List Nat

/-! ### SHA-256 (the `sha2::Sha256` hash used by `get_chat_hash`)

A direct executable implementation of FIPS 180-4 over byte lists, with
32-bit words represented as `Nat` reduced mod `2 ^ 32`. -/

/-- Reduce to a 32-bit word. -/
def wmod (x : Nat) : Nat := x % 4294967296

/-- Right rotation of a 32-bit word by `n`. -/
def rotr32 (n x : Nat) : Nat := wmod (x / 2 ^ n + x % 2 ^ n * 2 ^ (32 - n))

/-- Logical right shift of a 32-bit word by `n`. -/
def shr32 (n x : Nat) : Nat := x / 2 ^ n

def bigSigma0 (x : Nat) : Nat := rotr32 2 x ^^^ rotr32 13 x ^^^ rotr32 22 x

def bigSigma1 (x : Nat) : Nat := rotr32 6 x ^^^ rotr32 11 x ^^^ rotr32 25 x

def smallSigma0 (x : Nat) : Nat := rotr32 7 x ^^^ rotr32 18 x ^^^ shr32 3 x

def smallSigma1 (x : Nat) : Nat := rotr32 17 x ^^^ rotr32 19 x ^^^ shr32 10 x

def chFn (x y z : Nat) : Nat := (x &&& y) ^^^ ((x ^^^ 4294967295) &&& z)

def majFn (x y z : Nat) : Nat := (x &&& y) ^^^ (x &&& z) ^^^ (y &&& z)

/-- The SHA-256 round constants, written in decimal. -/
def shaK : List Nat :=
  [1116352408, 1899447441, 3049323471, 3921009573, 961987163,
   1508970993, 2453635748, 2870763221, 3624381080, 310598401,
   607225278, 1426881987, 1925078388, 2162078206, 2614888103,
   3248222580, 3835390401, 4022224774, 264347078, 604807628,
   770255983, 1249150122, 1555081692, 1996064986, 2554220882,
   2821834349, 2952996808, 3210313671, 3336571891, 3584528711,
   113926993, 338241895, 666307205, 773529912, 1294757372,
   1396182291, 1695183700, 1986661051, 2177026350, 2456956037,
   2730485921, 2820302411, 3259730800, 3345764771, 3516065817,
   3600352804, 4094571909, 275423344, 430227734, 506948616,
   659060556, 883997877, 958139571, 1322822218, 1537002063,
   1747873779, 1955562222, 2024104815, 2227730452, 2361852424,
   2428436474, 2756734187, 3204031479, 3329325298]

/-- The SHA-256 initial hash value, written in decimal. -/
def shaH0 : List Nat :=
  [1779033703, 3144134277, 1013904242, 2773480762,
   1359893119, 2600822924, 528734635, 1541459225]

/-- Group a byte list into big-endian 32-bit words. -/
def bytesToWords : List Nat → List Nat
  | b0 :: b1 :: b2 :: b3 :: rest =>
      (b0 * 16777216 + b1 * 65536 + b2 * 256 + b3) :: bytesToWords rest
  | _ => []

/-- Split a 32-bit word into its four big-endian bytes. -/
def wordToBytes (w : Nat) : List Nat :=
  [w / 16777216 % 256, w / 65536 % 256, w / 256 % 256, w % 256]

/-- Extend the 16-word message block to the 64-word schedule. -/
def extendSchedule (w : List Nat) : List Nat :=
  (List.range 48).foldl
    (fun w _ =>
      let n := w.length
      w ++ [wmod (smallSigma1 (w.getD (n - 2) 0) + w.getD (n - 7) 0 +
                  smallSigma0 (w.getD (n - 15) 0) + w.getD (n - 16) 0)])
    w

/-- One round of the SHA-256 compression function on the state
`[a, b, c, d, e, f, g, h]`. -/
def compressRound (st : List Nat) (k w : Nat) : List Nat :=
  match st with
  | [a, b, c, d, e, f, g, h] =>
      let t1 := wmod (h + bigSigma1 e + chFn e f g + k + w)
      let t2 := wmod (bigSigma0 a + majFn a b c)
      [wmod (t1 + t2), a, b, c, wmod (d + t1), e, f, g]
  | st => st

/-- Process one 64-byte block. -/
def processBlock (h : List Nat) (blk : List Nat) : List Nat :=
  let w := extendSchedule (bytesToWords blk)
  let st := (List.zip shaK w).foldl (fun st p => compressRound st p.1 p.2) h
  List.zipWith (fun x y => wmod (x + y)) h st

/-- Append the SHA-256 padding: a `0x80` byte, zeros up to 56 mod 64,
and the message bit length as eight big-endian bytes. -/
def padMessage (msg : List Nat) : List Nat :=
  let bitLen := msg.length * 8
  let padZeros := (120 - (msg.length + 1) % 64) % 64
  msg ++ [128] ++ List.replicate padZeros 0 ++
    [bitLen / 2 ^ 56 % 256, bitLen / 2 ^ 48 % 256,
     bitLen / 2 ^ 40 % 256, bitLen / 2 ^ 32 % 256,
     bitLen / 2 ^ 24 % 256, bitLen / 2 ^ 16 % 256,
     bitLen / 2 ^ 8 % 256, bitLen % 256]

/-- Split a byte list into 64-byte chunks. -/
def chunks64 (l : List Nat) : List (List Nat) :=
  if h : l = [] then []
  else l.take 64 :: chunks64 (l.drop 64)
termination_by l.length
decreasing_by
  have hne : l.length ≠ 0 := fun hx => h (List.length_eq_zero.mp hx)
  simp only [List.length_drop]
  omega

/-- SHA-256 of a byte list, as a 32-byte list. -/
def sha256 (msg : List Nat) : List Nat :=
  List.flatten (((chunks64 (padMessage msg)).foldl processBlock shaH0).map wordToBytes)

/-! ### `get_chat_hash` (programs/mukon-messenger/src/lib.rs, lines 41-61)

The source scans the two 32-byte keys for the first differing byte; at
that index it copies the lexicographically smaller key followed by the
larger into a 64-byte buffer (initially all zeros) and breaks.  If the
keys never differ the buffer stays all zeros.  The buffer is then
SHA-256 hashed. -/

/-- First position where the two byte strings differ, returning that
pair of differing bytes (the loop `for i in 0..32` with `continue` on
equal bytes and `break` after ordering). -/
def firstDiff : List Nat → List Nat → Option (Nat × Nat)
  | [], _ => none
  | _, [] => none
  | x :: xs, y :: ys => if x = y then firstDiff xs ys else some (x, y)

/-- The 64-byte buffer `c` built by `get_chat_hash`: all zeros when the
inputs never differ, otherwise the ordered concatenation of the pair. -/
def chatBuffer (a b : List Nat) : List Nat :=
  match firstDiff a b with
  | none => List.replicate 64 0
  | some (x, y) => if x < y then a ++ b else b ++ a

/-- `get_chat_hash`: SHA-256 of the order-normalised concatenation. -/
def get_chat_hash (a b : Identity) : List Nat :=
  sha256 (chatBuffer a b)

/-! ### The encrypted contact circuit (encrypted-ixs/src/lib.rs) -/

/-- Maximum number of contacts (fixed-size for MPC compatibility). -/
def MAX_CONTACTS : Nat := 100

/-- Encrypted contact entry: `status` is 0=empty, 1=pending,
2=accepted, 3=rejected, 4=blocked. -/
structure ContactEntry where
  pubkey : List Nat
  status : Nat
deriving DecidableEq, Repr

/-- The out-of-range read default; the source array always has exactly
`MAX_CONTACTS` entries, so this default is never read there. -/
def emptyEntry : ContactEntry := ⟨List.replicate 32 0, 0⟩

/-- Encrypted contact list with fixed capacity and a `count` field. -/
structure ContactList where
  contacts : List ContactEntry
  count : Nat
deriving DecidableEq, Repr

/-- `is_accepted_contact`: scan all `MAX_CONTACTS` slots; a slot sets
the flag when it is active (`i < count`) and its entry matches the
queried pubkey with accepted status. -/
def is_accepted_contact (list : ContactList) (query_pubkey : List Nat) : Bool :=
  (List.range MAX_CONTACTS).foldl
    (fun is_contact i =>
      if i < list.count then
        if (list.contacts.getD i emptyEntry).pubkey = query_pubkey ∧
           (list.contacts.getD i emptyEntry).status = 2 then true
        else is_contact
      else is_contact)
    false

/-- `count_accepted`: same fixed scan, counting active accepted slots. -/
def count_accepted (list : ContactList) : Nat :=
  (List.range MAX_CONTACTS).foldl
    (fun count i =>
      if i < list.count then
        if (list.contacts.getD i emptyEntry).status = 2 then count + 1
        else count
      else count)
    0

/-! ### Relationship state machine (programs/mukon-messenger/src/lib.rs) -/

/-- The typed error codes of the program. -/
inductive ErrorCode
  | AlreadyInvited
  | NotInvited
  | NotRequested
  | InvalidHash
  | DisplayNameTooLong
  | GroupNameTooLong
  | GroupFull
  | NotGroupMember
  | NotGroupAdmin
  | CannotRemoveCreator
  | InsufficientTokenBalance
  | TokenAccountRequired
  | InvalidTokenAccount
  | Unauthorized
deriving DecidableEq, Repr

/-- Relationship states held about a peer. -/
inductive PeerState
  | Invited
  | Requested
  | Accepted
  | Rejected
  | Blocked
deriving DecidableEq, Repr

/-- One entry of a wallet's peer list. -/
structure Peer where
  wallet : Identity
  state : PeerState
deriving DecidableEq, Repr

/-- The per-identity relationship record. -/
structure WalletDescriptor where
  owner : Identity
  peers : List Peer
deriving DecidableEq, Repr

/-- The per-chat-hash conversation record written by `invite`. -/
structure Conversation where
  participants : Identity × Identity
  created_at : Int
deriving DecidableEq, Repr

/-- `Pubkey::default()`: the all-zero key marking an uninitialised
wallet-descriptor account. -/
def defaultPubkey : Identity := List.replicate 32 0

/-- `peers.iter().find(|p| p.wallet == w)`. -/
def findPeer (peers : List Peer) (w : Identity) : Option Peer :=
  peers.find? (fun p => decide (p.wallet = w))

/-- The source update loops: set the state of the first entry whose
wallet matches, then break; no entry matching leaves the list as is. -/
def setPeerState : List Peer → Identity → PeerState → List Peer
  | [], _, _ => []
  | p :: ps, w, s =>
      if p.wallet = w then ⟨p.wallet, s⟩ :: ps
      else p :: setPeerState ps w s

/-- One side of `invite`'s rule table: a `Rejected` entry is refreshed
to `newState`, a `Blocked` or any other existing entry fails
`AlreadyInvited`, an absent entry is pushed with `newState`. -/
def inviteSide (peers : List Peer) (other : Identity) (newState : PeerState) :
    Except ErrorCode (List Peer) :=
  match findPeer peers other with
  | some p =>
      match p.state with
      | PeerState.Rejected => Except.ok (setPeerState peers other newState)
      | PeerState.Blocked => Except.error ErrorCode.AlreadyInvited
      | _ => Except.error ErrorCode.AlreadyInvited
  | none => Except.ok (peers ++ [⟨other, newState⟩])

/-- The opening block of `invite`: a freshly created invitee account
(owner still `Pubkey::default()`) gets its owner set and an empty peer
list; an already initialised account is left as is. -/
def initInvitee (invitee : Identity) (d : WalletDescriptor) : WalletDescriptor :=
  if d.owner = defaultPubkey then ⟨invitee, []⟩ else d

/-- `invite` (lines 177-252): initialise the invitee descriptor when its
owner is the default key, check the supplied chat hash, update the
inviter side (`Invited`) then the invitee side (`Requested`), and
unconditionally rewrite the conversation record. -/
def invite (inviter invitee : Identity) (suppliedHash : List Nat)
    (inviterDesc inviteeDesc : WalletDescriptor) (now : Int) :
    Except ErrorCode (WalletDescriptor × WalletDescriptor × Conversation) :=
  if get_chat_hash inviter invitee = suppliedHash then
    match inviteSide inviterDesc.peers invitee PeerState.Invited with
    | Except.error e => Except.error e
    | Except.ok inviterPeers =>
        match inviteSide (initInvitee invitee inviteeDesc).peers inviter
            PeerState.Requested with
        | Except.error e => Except.error e
        | Except.ok inviteePeers =>
            Except.ok (⟨inviterDesc.owner, inviterPeers⟩,
                       ⟨(initInvitee invitee inviteeDesc).owner, inviteePeers⟩,
                       ⟨(inviter, invitee), now⟩)
  else Except.error ErrorCode.InvalidHash

/-- `accept` (lines 254-288): requires `Requested` on the caller side
and `Invited` on the peer side, then sets both to `Accepted`. -/
def accept (me peer : Identity) (meDesc peerDesc : WalletDescriptor) :
    Except ErrorCode (WalletDescriptor × WalletDescriptor) :=
  if meDesc.peers.any
      (fun p => decide (p.wallet = peer ∧ p.state = PeerState.Requested)) then
    if peerDesc.peers.any
        (fun p => decide (p.wallet = me ∧ p.state = PeerState.Invited)) then
      Except.ok (⟨meDesc.owner, setPeerState meDesc.peers peer PeerState.Accepted⟩,
                 ⟨peerDesc.owner, setPeerState peerDesc.peers me PeerState.Accepted⟩)
    else Except.error ErrorCode.NotInvited
  else Except.error ErrorCode.NotRequested

/-- `reject` (lines 290-327): allowed from a pending invite or from an
accepted contact; sets both sides to `Rejected`. -/
def reject (me peer : Identity) (meDesc peerDesc : WalletDescriptor) :
    Except ErrorCode (WalletDescriptor × WalletDescriptor) :=
  if meDesc.peers.any
      (fun p => decide (p.wallet = peer ∧
        (p.state = PeerState.Requested ∨ p.state = PeerState.Accepted))) then
    if peerDesc.peers.any
        (fun p => decide (p.wallet = me ∧
          (p.state = PeerState.Invited ∨ p.state = PeerState.Accepted))) then
      Except.ok (⟨meDesc.owner, setPeerState meDesc.peers peer PeerState.Rejected⟩,
                 ⟨peerDesc.owner, setPeerState peerDesc.peers me PeerState.Rejected⟩)
    else Except.error ErrorCode.NotInvited
  else Except.error ErrorCode.NotRequested

/-- `block` (lines 329-365): any existing relationship on both sides
may be blocked; sets both sides to `Blocked`. -/
def block (me peer : Identity) (meDesc peerDesc : WalletDescriptor) :
    Except ErrorCode (WalletDescriptor × WalletDescriptor) :=
  if meDesc.peers.any (fun p => decide (p.wallet = peer)) then
    if peerDesc.peers.any (fun p => decide (p.wallet = me)) then
      Except.ok (⟨meDesc.owner, setPeerState meDesc.peers peer PeerState.Blocked⟩,
                 ⟨peerDesc.owner, setPeerState peerDesc.peers me PeerState.Blocked⟩)
    else Except.error ErrorCode.NotInvited
  else Except.error ErrorCode.NotInvited

/-- `unblock` (lines 367-403): requires `Blocked` on both sides; sets
both sides to `Rejected` so a fresh invite is needed afterwards. -/
def unblock (me peer : Identity) (meDesc peerDesc : WalletDescriptor) :
    Except ErrorCode (WalletDescriptor × WalletDescriptor) :=
  if meDesc.peers.any
      (fun p => decide (p.wallet = peer ∧ p.state = PeerState.Blocked)) then
    if peerDesc.peers.any
        (fun p => decide (p.wallet = me ∧ p.state = PeerState.Blocked)) then
      Except.ok (⟨meDesc.owner, setPeerState meDesc.peers peer PeerState.Rejected⟩,
                 ⟨peerDesc.owner, setPeerState peerDesc.peers me PeerState.Rejected⟩)
    else Except.error ErrorCode.NotInvited
  else Except.error ErrorCode.NotInvited

/-- The host runtime's commit boundary: an instruction that returns
`ok` commits its writes, one that returns an error leaves every record
it touched at the pre-call state. -/
def commitE {α : Type} (r : Except ErrorCode α) (prev : α) : α :=
  match r with
  | Except.ok next => next
  | Except.error _ => prev

/-! ### Group registry (programs/mukon-messenger/src/lib.rs, group part)

Names are byte strings (`String::len` in Rust counts UTF-8 bytes), so
they are modelled as byte lists like every other byte string here. -/

/-- Optional token gate of a group. -/
structure TokenGate where
  token_mint : Identity
  min_balance : Nat
deriving DecidableEq, Repr

/-- The group account. -/
structure Group where
  group_id : List Nat
  creator : Identity
  name : List Nat
  created_at : Int
  members : List Identity
  encryption_pubkey : List Nat
  token_gate : Option TokenGate
deriving DecidableEq, Repr

/-- Status of a group invite. -/
inductive GroupInviteStatus
  | Pending
  | Accepted
  | Rejected
deriving DecidableEq, Repr

/-- The per-`(group, invitee)` invite account. -/
structure GroupInvite where
  group_id : List Nat
  inviter : Identity
  invitee : Identity
  status : GroupInviteStatus
  created_at : Int
deriving DecidableEq, Repr

/-- The SPL token account presented for a gate check: the program reads
its owner, mint and amount. -/
structure TokenAccount where
  owner : Identity
  mint : Identity
  amount : Nat
deriving DecidableEq, Repr

/-- State of one group together with its invite accounts, which are
addressed by invitee (PDA seeds `(group_id, invitee)`). -/
structure GroupState where
  group : Group
  invites : Identity → Option GroupInvite

/-- `create_group` (lines 407-429): name at most 64 bytes; members
initialised to the creator alone. -/
def create_group (creator : Identity) (group_id : List Nat) (name : List Nat)
    (encryption_pubkey : List Nat) (token_gate : Option TokenGate) (now : Int) :
    Except ErrorCode Group :=
  if name.length ≤ 64 then
    Except.ok ⟨group_id, creator, name, now, [creator], encryption_pubkey, token_gate⟩
  else Except.error ErrorCode.GroupNameTooLong

/-- Apply the optional gate replacement of `update_group`: a present
gate replaces, an absent argument leaves the stored gate in place. -/
def applyGate (g : Group) (gate : Option TokenGate) : Group :=
  match gate with
  | some newGate => { g with token_gate := some newGate }
  | none => g

/-- `update_group` (lines 431-456): creator only; optional name
replacement (length-checked) and optional gate replacement. -/
def update_group (caller : Identity) (name : Option (List Nat))
    (token_gate : Option TokenGate) (g : Group) : Except ErrorCode Group :=
  if g.creator = caller then
    match name with
    | some newName =>
        if newName.length ≤ 64 then
          Except.ok (applyGate { g with name := newName } token_gate)
        else Except.error ErrorCode.GroupNameTooLong
    | none => Except.ok (applyGate g token_gate)
  else Except.error ErrorCode.NotGroupAdmin

/-- `invite_to_group` (lines 458-488): any member may invite while the
group has fewer than 30 members and the invitee is not yet a member;
writes or overwrites a `Pending` invite for the invitee. -/
def invite_to_group (caller invitee : Identity) (now : Int) (st : GroupState) :
    Except ErrorCode GroupState :=
  if caller ∈ st.group.members then
    if st.group.members.length < 30 then
      if invitee ∈ st.group.members then Except.error ErrorCode.AlreadyInvited
      else
        Except.ok ⟨st.group,
          fun w =>
            if w = invitee then
              some ⟨st.group.group_id, caller, invitee, GroupInviteStatus.Pending, now⟩
            else st.invites w⟩
    else Except.error ErrorCode.GroupFull
  else Except.error ErrorCode.NotGroupMember

/-- The token-gate check of `accept_group_invite`: with a gate set, a
token account must be supplied, owned by the caller, of the gated mint
and with at least the minimum balance. -/
def gateCheck (gate : Option TokenGate) (caller : Identity)
    (tok : Option TokenAccount) : Except ErrorCode Unit :=
  match gate with
  | none => Except.ok ()
  | some gate =>
      match tok with
      | none => Except.error ErrorCode.TokenAccountRequired
      | some t =>
          if t.owner = caller then
            if t.mint = gate.token_mint then
              if gate.min_balance ≤ t.amount then Except.ok ()
              else Except.error ErrorCode.InsufficientTokenBalance
            else Except.error ErrorCode.InsufficientTokenBalance
          else Except.error ErrorCode.InvalidTokenAccount

/-- `accept_group_invite` (lines 490-534): the caller's invite must
exist, be `Pending` and addressed to the caller; the gate check must
pass; the group must have fewer than 30 members; then the caller is
appended to the members and the invite becomes `Accepted`. -/
def accept_group_invite (caller : Identity) (tok : Option TokenAccount)
    (st : GroupState) : Except ErrorCode GroupState :=
  match st.invites caller with
  | none => Except.error ErrorCode.NotInvited
  | some inv =>
      if inv.status = GroupInviteStatus.Pending then
        if inv.invitee = caller then
          match gateCheck st.group.token_gate caller tok with
          | Except.error e => Except.error e
          | Except.ok _ =>
              if st.group.members.length < 30 then
                Except.ok ⟨{ st.group with members := st.group.members ++ [caller] },
                  fun w =>
                    if w = caller then
                      some { inv with status := GroupInviteStatus.Accepted }
                    else st.invites w⟩
              else Except.error ErrorCode.GroupFull
        else Except.error ErrorCode.NotInvited
      else Except.error ErrorCode.NotInvited

/-- `reject_group_invite` (lines 536-558): a `Pending` invite addressed
to the caller becomes `Rejected`. -/
def reject_group_invite (caller : Identity) (st : GroupState) :
    Except ErrorCode GroupState :=
  match st.invites caller with
  | none => Except.error ErrorCode.NotInvited
  | some inv =>
      if inv.status = GroupInviteStatus.Pending then
        if inv.invitee = caller then
          Except.ok ⟨st.group,
            fun w =>
              if w = caller then
                some { inv with status := GroupInviteStatus.Rejected }
              else st.invites w⟩
        else Except.error ErrorCode.NotInvited
      else Except.error ErrorCode.NotInvited

/-- `leave_group` (lines 560-582): the creator cannot leave; a
non-creator member is removed from the member list. -/
def leave_group (caller : Identity) (st : GroupState) :
    Except ErrorCode GroupState :=
  if st.group.creator = caller then Except.error ErrorCode.CannotRemoveCreator
  else if caller ∈ st.group.members then
    Except.ok ⟨{ st.group with
      members := st.group.members.filter (fun m => decide (m ≠ caller)) }, st.invites⟩
  else Except.error ErrorCode.NotGroupMember

/-- `kick_member` (lines 584-612): creator only; the creator cannot be
the target; the target must be a member and is removed. -/
def kick_member (caller target : Identity) (st : GroupState) :
    Except ErrorCode GroupState :=
  if st.group.creator = caller then
    if target = st.group.creator then Except.error ErrorCode.CannotRemoveCreator
    else if target ∈ st.group.members then
      Except.ok ⟨{ st.group with
        members := st.group.members.filter (fun m => decide (m ≠ target)) }, st.invites⟩
    else Except.error ErrorCode.NotGroupMember
  else Except.error ErrorCode.NotGroupAdmin

/-- One group operation, covering every instruction that mutates a
live group or its invites. -/
inductive GroupOp
  | update (caller : Identity) (name : Option (List Nat)) (gate : Option TokenGate)
  | inviteMember (caller invitee : Identity) (now : Int)
  | acceptInvite (caller : Identity) (tok : Option TokenAccount)
  | rejectInvite (caller : Identity)
  | leave (caller : Identity)
  | kick (caller target : Identity)

/-- Dispatch a group operation. -/
def applyGroupOp (op : GroupOp) (st : GroupState) : Except ErrorCode GroupState :=
  match op with
  | GroupOp.update caller name gate =>
      match update_group caller name gate st.group with
      | Except.ok g => Except.ok ⟨g, st.invites⟩
      | Except.error e => Except.error e
  | GroupOp.inviteMember caller invitee now => invite_to_group caller invitee now st
  | GroupOp.acceptInvite caller tok => accept_group_invite caller tok st
  | GroupOp.rejectInvite caller => reject_group_invite caller st
  | GroupOp.leave caller => leave_group caller st
  | GroupOp.kick caller target => kick_member caller target st

/-- The committed effect of a group operation: errors leave the state
untouched. -/
def runGroupOp (op : GroupOp) (st : GroupState) : GroupState :=
  commitE (applyGroupOp op st) st

/-- Group states reachable from a successful `create_group` (which
starts with no invite accounts) by any sequence of group operations. -/
inductive ReachableGroup : GroupState → Prop
  | init (creator : Identity) (gid name ek : List Nat)
      (gate : Option TokenGate) (now : Int) (g : Group) :
      create_group creator gid name ek gate now = Except.ok g →
      ReachableGroup ⟨g, fun _ => none⟩
  | step (op : GroupOp) (st : GroupState) :
      ReachableGroup st → ReachableGroup (runGroupOp op st)

/-- The inductive group invariant: member count within capacity, no
duplicate members, the creator always a member, and no member still
holding a `Pending` invite (which is what makes re-adding impossible
without leaving first). -/
def GroupInv (st : GroupState) : Prop :=
  st.group.members.length ≤ 30 ∧
  st.group.members.Nodup ∧
  st.group.creator ∈ st.group.members ∧
  ∀ w ∈ st.group.members, ∀ inv, st.invites w = some inv →
    inv.status ≠ GroupInviteStatus.Pending

/-! ### Helper lemmas -/

/-- A fold that latches to `true` on a hit computes the disjunction of
the predicate over the traversed list. -/
theorem foldl_latch_any (f : Nat → Bool) :
    ∀ (l : List Nat) (b : Bool),
      l.foldl (fun acc i => if f i then true else acc) b = (b || l.any f) := by
  intro l
  induction l with
  | nil => intro b; simp
  | cons hd tl ih =>
      intro b
      rw [List.foldl_cons, ih]
      cases hf : f hd <;> simp [hf]

/-- `is_accepted_contact` as a disjunction over the scanned range. -/
theorem is_accepted_contact_any (list : ContactList) (q : List Nat) :
    is_accepted_contact list q =
      (List.range MAX_CONTACTS).any
        (fun i => decide (i < list.count ∧
          (list.contacts.getD i emptyEntry).pubkey = q ∧
          (list.contacts.getD i emptyEntry).status = 2)) := by
  unfold is_accepted_contact
  have hstep :
      (fun (is_contact : Bool) (i : Nat) =>
        if i < list.count then
          if (list.contacts.getD i emptyEntry).pubkey = q ∧
             (list.contacts.getD i emptyEntry).status = 2 then true
          else is_contact
        else is_contact) =
      (fun (acc : Bool) (i : Nat) =>
        if (decide (i < list.count ∧
            (list.contacts.getD i emptyEntry).pubkey = q ∧
            (list.contacts.getD i emptyEntry).status = 2)) then true
        else acc) := by
    funext acc i
    by_cases h1 : i < list.count <;>
      by_cases h2 : (list.contacts.getD i emptyEntry).pubkey = q ∧
        (list.contacts.getD i emptyEntry).status = 2 <;>
      simp [h1, h2]
  rw [hstep, foldl_latch_any]
  simp

/-- The boolean result of `is_accepted_contact` characterised for a
list whose `count` is within capacity. -/
theorem is_accepted_contact_iff (list : ContactList) (q : List Nat)
    (hcount : list.count ≤ MAX_CONTACTS) :
    is_accepted_contact list q = true ↔
      ∃ i, i < list.count ∧
        (list.contacts.getD i emptyEntry).pubkey = q ∧
        (list.contacts.getD i emptyEntry).status = 2 := by
  rw [is_accepted_contact_any]
  simp only [List.any_eq_true, List.mem_range, decide_eq_true_eq]
  constructor
  · rintro ⟨i, _, hc, hm⟩
    exact ⟨i, hc, hm⟩
  · rintro ⟨i, hc, hm⟩
    exact ⟨i, lt_of_lt_of_le hc hcount, hc, hm⟩

/-- Equal inputs never differ, so the buffer is never written. -/
theorem firstDiff_self : ∀ a : List Nat, firstDiff a a = none := by
  intro a
  induction a with
  | nil => rfl
  | cons x xs ih => simp [firstDiff, ih]

/-- Swapping the inputs swaps the differing pair. -/
theorem firstDiff_symm : ∀ a b : List Nat,
    firstDiff b a = (firstDiff a b).map (fun p => (p.2, p.1)) := by
  intro a
  induction a with
  | nil => intro b; cases b <;> simp [firstDiff]
  | cons x xs ih =>
      intro b
      cases b with
      | nil => simp [firstDiff]
      | cons y ys =>
          by_cases h : x = y
          · subst h
            simp [firstDiff, ih]
          · simp [firstDiff, h, Ne.symm h]

/-- Distinct strings of equal length have a first differing pair, and
that pair consists of two distinct bytes. -/
theorem firstDiff_of_ne (a : List Nat) :
    ∀ b : List Nat, a.length = b.length → a ≠ b →
      ∃ x y, firstDiff a b = some (x, y) ∧ x ≠ y := by
  induction a with
  | nil =>
      intro b hlen hne
      cases b with
      | nil => exact absurd rfl hne
      | cons y ys => simp at hlen
  | cons x xs ih =>
      intro b hlen hne
      cases b with
      | nil => simp at hlen
      | cons y ys =>
          by_cases h : x = y
          · subst h
            have hne' : xs ≠ ys := fun he => hne (by rw [he])
            obtain ⟨u, v, h1, h2⟩ := ih ys (by simpa using hlen) hne'
            exact ⟨u, v, by simpa [firstDiff] using h1, h2⟩
          · exact ⟨x, y, by simp [firstDiff, h], h⟩

/-- Setting the state of an existing peer makes it the first match. -/
theorem findPeer_setPeerState_self (l : List Peer) (w : Identity) (s : PeerState)
    (h : ∃ p ∈ l, p.wallet = w) :
    findPeer (setPeerState l w s) w = some ⟨w, s⟩ := by
  induction l with
  | nil => simp at h
  | cons p ps ih =>
      by_cases hw : p.wallet = w
      · simp [setPeerState, hw, findPeer, List.find?]
      · obtain ⟨q, hq, hqw⟩ := h
        rcases List.mem_cons.mp hq with rfl | hq'
        · exact absurd hqw hw
        · have := ih ⟨q, hq', hqw⟩
          simpa [setPeerState, hw, findPeer, List.find?] using this

/-- A pushed entry is found when no earlier entry matched. -/
theorem findPeer_append_self (l : List Peer) (w : Identity) (s : PeerState)
    (h : findPeer l w = none) :
    findPeer (l ++ [⟨w, s⟩]) w = some ⟨w, s⟩ := by
  unfold findPeer at h ⊢
  rw [List.find?_append, h]
  simp [List.find?]

/-- `setPeerState` only touches entries of the targeted wallet. -/
theorem filter_setPeerState_ne (l : List Peer) (w w' : Identity) (s : PeerState)
    (h : w' ≠ w) :
    (setPeerState l w s).filter (fun p => decide (p.wallet = w')) =
      l.filter (fun p => decide (p.wallet = w')) := by
  induction l with
  | nil => rfl
  | cons p ps ih =>
      by_cases hw : p.wallet = w
      · have hww' : ¬ (w = w') := fun he => h he.symm
        simp [setPeerState, hw, List.filter_cons, hww']
      · simp [setPeerState, hw, List.filter_cons, ih]

/-- What `findPeer` returns is a member matching the wallet. -/
theorem findPeer_some (l : List Peer) (w : Identity) (p : Peer)
    (h : findPeer l w = some p) : p ∈ l ∧ p.wallet = w := by
  refine ⟨List.mem_of_find?_eq_some h, ?_⟩
  have := List.find?_some h
  simpa using this

/-- The membership form of `findPeer` success. -/
theorem exists_of_findPeer_some (l : List Peer) (w : Identity) (p : Peer)
    (h : findPeer l w = some p) : ∃ q ∈ l, q.wallet = w := by
  obtain ⟨hm, hw⟩ := findPeer_some l w p h
  exact ⟨p, hm, hw⟩

/-- A successful `inviteSide` leaves the targeted entry present with
the new state as the first match. -/
theorem findPeer_inviteSide (peers : List Peer) (other : Identity)
    (ns : PeerState) (newPeers : List Peer)
    (h : inviteSide peers other ns = Except.ok newPeers) :
    findPeer newPeers other = some ⟨other, ns⟩ := by
  unfold inviteSide at h
  rcases hf : findPeer peers other with _ | ⟨pw, pstate⟩ <;> rw [hf] at h
  · have h2 : Except.ok (peers ++ [(⟨other, ns⟩ : Peer)]) = Except.ok newPeers := h
    injection h2 with h3
    subst h3
    exact findPeer_append_self peers other ns hf
  · cases pstate with
    | Rejected =>
        have h2 : Except.ok (setPeerState peers other ns) = Except.ok newPeers := h
        injection h2 with h3
        subst h3
        exact findPeer_setPeerState_self peers other ns
          (exists_of_findPeer_some peers other _ hf)
    | Invited => exact Except.noConfusion h
    | Requested => exact Except.noConfusion h
    | Accepted => exact Except.noConfusion h
    | Blocked => exact Except.noConfusion h

/-- `inviteSide` only ever fails with `AlreadyInvited`. -/
theorem inviteSide_error (peers : List Peer) (other : Identity)
    (ns : PeerState) (e : ErrorCode)
    (h : inviteSide peers other ns = Except.error e) :
    e = ErrorCode.AlreadyInvited := by
  unfold inviteSide at h
  rcases hf : findPeer peers other with _ | ⟨pw, pstate⟩ <;> rw [hf] at h
  · exact Except.noConfusion h
  · cases pstate with
    | Rejected => exact Except.noConfusion h
    | Invited =>
        have h2 : Except.error (α := List Peer) ErrorCode.AlreadyInvited =
          Except.error e := h
        injection h2 with h3
        exact h3.symm
    | Requested =>
        have h2 : Except.error (α := List Peer) ErrorCode.AlreadyInvited =
          Except.error e := h
        injection h2 with h3
        exact h3.symm
    | Accepted =>
        have h2 : Except.error (α := List Peer) ErrorCode.AlreadyInvited =
          Except.error e := h
        injection h2 with h3
        exact h3.symm
    | Blocked =>
        have h2 : Except.error (α := List Peer) ErrorCode.AlreadyInvited =
          Except.error e := h
        injection h2 with h3
        exact h3.symm

/-- An existing entry in any state other than `Rejected` makes
`inviteSide` fail with `AlreadyInvited`. -/
theorem inviteSide_existing (peers : List Peer) (other : Identity)
    (ns : PeerState) (p : Peer)
    (hf : findPeer peers other = some p) (hs : p.state ≠ PeerState.Rejected) :
    inviteSide peers other ns = Except.error ErrorCode.AlreadyInvited := by
  obtain ⟨pw, pstate⟩ := p
  unfold inviteSide
  rw [hf]
  cases pstate with
  | Rejected => exact absurd rfl hs
  | Invited => rfl
  | Requested => rfl
  | Accepted => rfl
  | Blocked => rfl

/-- An absent or `Rejected` entry lets `inviteSide` pass. -/
theorem inviteSide_pass (peers : List Peer) (other : Identity) (ns : PeerState)
    (h : findPeer peers other = none ∨
      ∃ q, findPeer peers other = some q ∧ q.state = PeerState.Rejected) :
    ∃ l, inviteSide peers other ns = Except.ok l := by
  unfold inviteSide
  rcases h with hnone | ⟨q, hq, hqs⟩
  · rw [hnone]
    exact ⟨_, rfl⟩
  · rw [hq]
    obtain ⟨qw, qs⟩ := q
    cases qs with
    | Rejected => exact ⟨_, rfl⟩
    | Invited => exact PeerState.noConfusion hqs
    | Requested => exact PeerState.noConfusion hqs
    | Accepted => exact PeerState.noConfusion hqs
    | Blocked => exact PeerState.noConfusion hqs

/-- A successful `update_group` never changes members or creator. -/
theorem update_group_ok (caller : Identity) (n : Option (List Nat))
    (gate : Option TokenGate) (g g' : Group)
    (h : update_group caller n gate g = Except.ok g') :
    g'.members = g.members ∧ g'.creator = g.creator := by
  rcases n with _ | newName
  · unfold update_group at h
    split_ifs at h with hc
    · injection h with h2
      subst h2
      cases gate <;> simp [applyGate]
  · unfold update_group at h
    simp only at h
    split_ifs at h with hc hl <;>
      first
        | exact Except.noConfusion h
        | (injection h with h2
           subst h2
           cases gate <;> simp [applyGate])

/-- Inversion of a successful `invite_to_group`. -/
theorem invite_to_group_ok (c i : Identity) (now : Int) (st st' : GroupState)
    (h : invite_to_group c i now st = Except.ok st') :
    st'.group = st.group ∧ i ∉ st.group.members ∧
    ∀ w, w ≠ i → st'.invites w = st.invites w := by
  unfold invite_to_group at h
  split_ifs at h with h1 h2 h3 <;>
    first
      | exact Except.noConfusion h
      | (injection h with h4
         subst h4
         exact ⟨rfl, by assumption, fun w hw => by simp [hw]⟩)

/-- Inversion of a successful `accept_group_invite`. -/
theorem accept_group_invite_ok (c : Identity) (tok : Option TokenAccount)
    (st st' : GroupState) (h : accept_group_invite c tok st = Except.ok st') :
    ∃ inv, st.invites c = some inv ∧ inv.status = GroupInviteStatus.Pending ∧
      st.group.members.length < 30 ∧
      st'.group.members = st.group.members ++ [c] ∧
      st'.group.creator = st.group.creator ∧
      (∀ w, w ≠ c → st'.invites w = st.invites w) ∧
      ∀ inv', st'.invites c = some inv' →
        inv'.status ≠ GroupInviteStatus.Pending := by
  rcases hin : st.invites c with _ | inv
  · rw [accept_group_invite, hin] at h
    exact Except.noConfusion h
  · rw [accept_group_invite, hin] at h
    simp only at h
    split_ifs at h with hpend hinv hlen
    · rcases hg : gateCheck st.group.token_gate c tok with e | u <;> rw [hg] at h
      · exact Except.noConfusion h
      · injection h with h2
        subst h2
        refine ⟨inv, rfl, hpend, hlen, rfl, rfl, fun w hw => ?_, fun inv' hinv' => ?_⟩
        · simp [hw]
        · simp only [if_pos rfl] at hinv'
          injection hinv' with h3
          subst h3
          exact fun hx => GroupInviteStatus.noConfusion hx
    · rcases hg : gateCheck st.group.token_gate c tok with e | u <;> rw [hg] at h <;>
        exact Except.noConfusion h

/-- Inversion of a successful `reject_group_invite`. -/
theorem reject_group_invite_ok (c : Identity) (st st' : GroupState)
    (h : reject_group_invite c st = Except.ok st') :
    st'.group = st.group ∧
    (∀ w, w ≠ c → st'.invites w = st.invites w) ∧
    ∀ inv', st'.invites c = some inv' →
      inv'.status ≠ GroupInviteStatus.Pending := by
  rcases hin : st.invites c with _ | inv
  · rw [reject_group_invite, hin] at h
    exact Except.noConfusion h
  · rw [reject_group_invite, hin] at h
    simp only at h
    split_ifs at h with hpend hinv
    injection h with h2
    subst h2
    refine ⟨rfl, fun w hw => ?_, fun inv' hinv' => ?_⟩
    · simp [hw]
    · simp only [if_pos rfl] at hinv'
      injection hinv' with h3
      subst h3
      exact fun hx => GroupInviteStatus.noConfusion hx

/-- Inversion of a successful `leave_group`. -/
theorem leave_group_ok (caller : Identity) (st st' : GroupState)
    (h : leave_group caller st = Except.ok st') :
    st.group.creator ≠ caller ∧ st'.invites = st.invites ∧
    st'.group.creator = st.group.creator ∧
    st'.group.members =
      st.group.members.filter (fun m => decide (m ≠ caller)) := by
  unfold leave_group at h
  split_ifs at h with h1 h2 <;>
    first
      | exact Except.noConfusion h
      | (injection h with h3
         subst h3
         exact ⟨h1, rfl, rfl, rfl⟩)

/-- Inversion of a successful `kick_member`. -/
theorem kick_member_ok (caller target : Identity) (st st' : GroupState)
    (h : kick_member caller target st = Except.ok st') :
    target ≠ st.group.creator ∧ st'.invites = st.invites ∧
    st'.group.creator = st.group.creator ∧
    st'.group.members =
      st.group.members.filter (fun m => decide (m ≠ target)) := by
  unfold kick_member at h
  split_ifs at h with h1 h2 h3 <;>
    first
      | exact Except.noConfusion h
      | (injection h with h4
         subst h4
         exact ⟨h2, rfl, rfl, rfl⟩)

/-- Every group operation preserves the group invariant. -/
theorem groupInv_runGroupOp (op : GroupOp) (st : GroupState) (h : GroupInv st) :
    GroupInv (runGroupOp op st) := by
  obtain ⟨hlen, hnd, hcr, hinv⟩ := h
  rcases hap : applyGroupOp op st with e | st'
  · rw [runGroupOp, hap]
    exact ⟨hlen, hnd, hcr, hinv⟩
  · rw [runGroupOp, hap]
    show GroupInv st'
    cases op with
    | update caller name gate =>
        simp only [applyGroupOp] at hap
        rcases hu : update_group caller name gate st.group with e' | g' <;>
          rw [hu] at hap
        · exact Except.noConfusion hap
        · injection hap with h2
          subst h2
          obtain ⟨hm, hc⟩ := update_group_ok caller name gate st.group g' hu
          refine ⟨?_, ?_, ?_, ?_⟩
          · rw [hm]; exact hlen
          · rw [hm]; exact hnd
          · rw [hc, hm]; exact hcr
          · intro w hw inv hinvw
            rw [hm] at hw
            exact hinv w hw inv hinvw
    | inviteMember c i now =>
        simp only [applyGroupOp] at hap
        obtain ⟨hg, hni, hoth⟩ := invite_to_group_ok c i now st st' hap
        refine ⟨?_, ?_, ?_, ?_⟩
        · rw [hg]; exact hlen
        · rw [hg]; exact hnd
        · rw [hg]; exact hcr
        · intro w hw inv hinvw
          rw [hg] at hw
          have hwi : w ≠ i := fun he => hni (he ▸ hw)
          rw [hoth w hwi] at hinvw
          exact hinv w hw inv hinvw
    | acceptInvite c tok =>
        simp only [applyGroupOp] at hap
        obtain ⟨inv, hin, hpend, hl30, hmem, hcr', hoth, hacc⟩ :=
          accept_group_invite_ok c tok st st' hap
        have hcnot : c ∉ st.group.members := fun hc => hinv c hc inv hin hpend
        refine ⟨?_, ?_, ?_, ?_⟩
        · rw [hmem]
          rw [List.length_append]
          simp only [List.length_singleton]
          omega
        · rw [hmem, List.nodup_append]
          exact ⟨hnd, List.nodup_singleton c,
            by simpa [List.disjoint_singleton] using hcnot⟩
        · rw [hcr', hmem]
          exact List.mem_append_left _ hcr
        · intro w hw inv' hinv'
          rw [hmem] at hw
          rcases List.mem_append.mp hw with hw' | hw''
          · have hwc : w ≠ c := fun he => hcnot (he ▸ hw')
            rw [hoth w hwc] at hinv'
            exact hinv w hw' inv' hinv'
          · have hwc : w = c := by simpa using hw''
            subst hwc
            exact hacc inv' hinv'
    | rejectInvite c =>
        simp only [applyGroupOp] at hap
        obtain ⟨hg, hoth, hrej⟩ := reject_group_invite_ok c st st' hap
        refine ⟨?_, ?_, ?_, ?_⟩
        · rw [hg]; exact hlen
        · rw [hg]; exact hnd
        · rw [hg]; exact hcr
        · intro w hw inv hinvw
          rw [hg] at hw
          by_cases hwc : w = c
          · subst hwc
            exact hrej inv hinvw
          · rw [hoth w hwc] at hinvw
            exact hinv w hw inv hinvw
    | leave caller =>
        simp only [applyGroupOp] at hap
        obtain ⟨hnc, hi, hc', hm⟩ := leave_group_ok caller st st' hap
        refine ⟨?_, ?_, ?_, ?_⟩
        · rw [hm]; exact le_trans (List.length_filter_le _ _) hlen
        · rw [hm]; exact hnd.filter _
        · rw [hc', hm]
          exact List.mem_filter.mpr ⟨hcr, by simpa using hnc⟩
        · intro w hw inv hinvw
          rw [hi] at hinvw
          rw [hm] at hw
          exact hinv w (List.mem_of_mem_filter hw) inv hinvw
    | kick caller target =>
        simp only [applyGroupOp] at hap
        obtain ⟨hnt, hi, hc', hm⟩ := kick_member_ok caller target st st' hap
        refine ⟨?_, ?_, ?_, ?_⟩
        · rw [hm]; exact le_trans (List.length_filter_le _ _) hlen
        · rw [hm]; exact hnd.filter _
        · rw [hc', hm]
          refine List.mem_filter.mpr ⟨hcr, ?_⟩
          simpa using fun he => hnt he.symm
        · intro w hw inv hinvw
          rw [hi] at hinvw
          rw [hm] at hw
          exact hinv w (List.mem_of_mem_filter hw) inv hinvw

/-- Every reachable group state satisfies the invariant. -/
theorem reachable_groupInv (st : GroupState) (h : ReachableGroup st) :
    GroupInv st := by
  induction h with
  | init creator gid name ek gate now g hcg =>
      unfold create_group at hcg
      split_ifs at hcg with hname
      injection hcg with h2
      subst h2
      refine ⟨by simp, by simp, by simp, ?_⟩
      intro w hw inv hinvw
      exact Option.noConfusion hinvw
  | step op st hst ih => exact groupInv_runGroupOp op st ih

/-! ### Claim theorems -/

/-- Claim C1: for every `ContactList` with `count ≤ 100` and every
query pubkey, `is_accepted_contact` returns `true` iff some index
`i < count` holds an entry whose pubkey equals the query and whose
status is `Accepted` (2); entries at indices `i ≥ count` never
influence the result, whatever their stored bytes. -/
theorem c1_is_accepted_contact_spec (list : ContactList) (q : List Nat)
    (hcount : list.count ≤ MAX_CONTACTS) :
    (is_accepted_contact list q = true ↔
      ∃ i, i < list.count ∧
        (list.contacts.getD i emptyEntry).pubkey = q ∧
        (list.contacts.getD i emptyEntry).status = 2) ∧
    (∀ l2 : ContactList, l2.count = list.count →
      (∀ i, i < list.count →
        l2.contacts.getD i emptyEntry = list.contacts.getD i emptyEntry) →
      is_accepted_contact l2 q = is_accepted_contact list q) := by
  refine ⟨is_accepted_contact_iff list q hcount, ?_⟩
  intro l2 hcnt heq
  have h2 : l2.count ≤ MAX_CONTACTS := by rw [hcnt]; exact hcount
  have hiff : (is_accepted_contact l2 q = true) ↔
      (is_accepted_contact list q = true) := by
    rw [is_accepted_contact_iff l2 q h2, is_accepted_contact_iff list q hcount]
    constructor
    · rintro ⟨i, hic, hm⟩
      rw [hcnt] at hic
      rw [heq i hic] at hm
      exact ⟨i, hic, hm⟩
    · rintro ⟨i, hic, hm⟩
      rw [← heq i hic] at hm
      refine ⟨i, ?_, hm⟩
      rw [hcnt]
      exact hic
  cases ha : is_accepted_contact l2 q <;>
    cases hb : is_accepted_contact list q <;> simp_all

/-- Witness for C1 at a concrete two-entry list. -/
theorem c1_witness :
    (ContactList.mk [⟨[5], 2⟩, ⟨[6], 1⟩] 2).count ≤ MAX_CONTACTS ∧
    ((is_accepted_contact (ContactList.mk [⟨[5], 2⟩, ⟨[6], 1⟩] 2) [5] = true ↔
      ∃ i, i < (ContactList.mk [⟨[5], 2⟩, ⟨[6], 1⟩] 2).count ∧
        ((ContactList.mk [⟨[5], 2⟩, ⟨[6], 1⟩] 2).contacts.getD i emptyEntry).pubkey = [5] ∧
        ((ContactList.mk [⟨[5], 2⟩, ⟨[6], 1⟩] 2).contacts.getD i emptyEntry).status = 2) ∧
    (∀ l2 : ContactList, l2.count = (ContactList.mk [⟨[5], 2⟩, ⟨[6], 1⟩] 2).count →
      (∀ i, i < (ContactList.mk [⟨[5], 2⟩, ⟨[6], 1⟩] 2).count →
        l2.contacts.getD i emptyEntry =
          (ContactList.mk [⟨[5], 2⟩, ⟨[6], 1⟩] 2).contacts.getD i emptyEntry) →
      is_accepted_contact l2 [5] =
        is_accepted_contact (ContactList.mk [⟨[5], 2⟩, ⟨[6], 1⟩] 2) [5])) :=
  ⟨by decide, c1_is_accepted_contact_spec (ContactList.mk [⟨[5], 2⟩, ⟨[6], 1⟩] 2) [5] (by decide)⟩

/-- Claim C8: for every two distinct 32-byte identities the chat hash
is commutative, and being a pure function it is deterministic across
repeated calls on the same inputs. -/
theorem c8_chat_hash_comm (a b : Identity)
    (ha : a.length = 32) (hb : b.length = 32) (hne : a ≠ b) :
    get_chat_hash a b = get_chat_hash b a ∧
    get_chat_hash a b = get_chat_hash a b := by
  refine ⟨?_, rfl⟩
  obtain ⟨x, y, hd, hxy⟩ := firstDiff_of_ne a b (ha.trans hb.symm) hne
  have hd' : firstDiff b a = some (y, x) := by
    rw [firstDiff_symm a b, hd]
    rfl
  have hbuf : chatBuffer a b = chatBuffer b a := by
    unfold chatBuffer
    rw [hd, hd']
    show (if x < y then a ++ b else b ++ a) = (if y < x then b ++ a else a ++ b)
    rcases Nat.lt_trichotomy x y with h | h | h
    · rw [if_pos h, if_neg (by omega)]
    · exact absurd h hxy
    · rw [if_neg (by omega), if_pos h]
  unfold get_chat_hash
  rw [hbuf]

/-- Witness for C8 at two concrete distinct 32-byte identities. -/
theorem c8_witness :
    (List.replicate 32 1 : List Nat).length = 32 ∧
    (List.replicate 32 2 : List Nat).length = 32 ∧
    (List.replicate 32 1 : List Nat) ≠ List.replicate 32 2 ∧
    (get_chat_hash (List.replicate 32 1) (List.replicate 32 2) =
       get_chat_hash (List.replicate 32 2) (List.replicate 32 1) ∧
     get_chat_hash (List.replicate 32 1) (List.replicate 32 2) =
       get_chat_hash (List.replicate 32 1) (List.replicate 32 2)) :=
  ⟨by decide, by decide, by decide,
   c8_chat_hash_comm (List.replicate 32 1) (List.replicate 32 2)
     (by decide) (by decide) (by decide)⟩

/-- Claim C10: on byte-wise equal inputs the scan never copies a byte
into the 64-byte buffer, so `get_chat_hash a a` is the SHA-256 digest
of 64 zero bytes — one constant shared by all pairs of equal
identities. -/
theorem c10_chat_hash_self :
    ∀ a : Identity, get_chat_hash a a = sha256 (List.replicate 64 0) := by
  intro a
  unfold get_chat_hash chatBuffer
  rw [firstDiff_self]

/-- Claim C4: `accept(S,C)` succeeds iff the caller side holds a
`Requested` entry for the peer and the peer side holds an `Invited`
entry for the caller (failing `NotRequested`, respectively
`NotInvited`, otherwise); on success both entries are `Accepted` and
entries for every other wallet are untouched on both sides. -/
theorem c4_accept_spec (me peer : Identity) (d1 d2 : WalletDescriptor) :
    ((∃ p ∈ d1.peers, p.wallet = peer ∧ p.state = PeerState.Requested) ∧
     (∃ p ∈ d2.peers, p.wallet = me ∧ p.state = PeerState.Invited) ↔
       ∃ r, accept me peer d1 d2 = Except.ok r) ∧
    (¬ (∃ p ∈ d1.peers, p.wallet = peer ∧ p.state = PeerState.Requested) →
      accept me peer d1 d2 = Except.error ErrorCode.NotRequested) ∧
    ((∃ p ∈ d1.peers, p.wallet = peer ∧ p.state = PeerState.Requested) →
     ¬ (∃ p ∈ d2.peers, p.wallet = me ∧ p.state = PeerState.Invited) →
      accept me peer d1 d2 = Except.error ErrorCode.NotInvited) ∧
    (∀ d1' d2', accept me peer d1 d2 = Except.ok (d1', d2') →
      findPeer d1'.peers peer = some ⟨peer, PeerState.Accepted⟩ ∧
      findPeer d2'.peers me = some ⟨me, PeerState.Accepted⟩ ∧
      (∀ w, w ≠ peer → d1'.peers.filter (fun p => decide (p.wallet = w)) =
        d1.peers.filter (fun p => decide (p.wallet = w))) ∧
      (∀ w, w ≠ me → d2'.peers.filter (fun p => decide (p.wallet = w)) =
        d2.peers.filter (fun p => decide (p.wallet = w)))) := by
  have e1 : d1.peers.any
      (fun p => decide (p.wallet = peer ∧ p.state = PeerState.Requested)) = true ↔
      ∃ p ∈ d1.peers, p.wallet = peer ∧ p.state = PeerState.Requested := by
    simp
  have e2 : d2.peers.any
      (fun p => decide (p.wallet = me ∧ p.state = PeerState.Invited)) = true ↔
      ∃ p ∈ d2.peers, p.wallet = me ∧ p.state = PeerState.Invited := by
    simp
  refine ⟨⟨?_, ?_⟩, ?_, ?_, ?_⟩
  · rintro ⟨ha, hb⟩
    unfold accept
    rw [if_pos (e1.mpr ha), if_pos (e2.mpr hb)]
    exact ⟨_, rfl⟩
  · rintro ⟨r, hr⟩
    unfold accept at hr
    split_ifs at hr with hc1 hc2
    · exact ⟨e1.mp hc1, e2.mp hc2⟩
  · intro hna
    unfold accept
    rw [if_neg (fun hc => hna (e1.mp hc))]
  · intro ha hnb
    unfold accept
    rw [if_pos (e1.mpr ha), if_neg (fun hc => hnb (e2.mp hc))]
  · intro d1' d2' hr
    unfold accept at hr
    split_ifs at hr with hc1 hc2
    have h2 : Except.ok
        ((⟨d1.owner, setPeerState d1.peers peer PeerState.Accepted⟩ : WalletDescriptor),
         (⟨d2.owner, setPeerState d2.peers me PeerState.Accepted⟩ : WalletDescriptor)) =
        Except.ok (d1', d2') := hr
    injection h2 with h3
    rw [Prod.mk.injEq] at h3
    obtain ⟨h4, h5⟩ := h3
    subst h4
    subst h5
    refine ⟨?_, ?_, ?_, ?_⟩
    · refine findPeer_setPeerState_self d1.peers peer PeerState.Accepted ?_
      obtain ⟨p, hp, hw, _⟩ := e1.mp hc1
      exact ⟨p, hp, hw⟩
    · refine findPeer_setPeerState_self d2.peers me PeerState.Accepted ?_
      obtain ⟨p, hp, hw, _⟩ := e2.mp hc2
      exact ⟨p, hp, hw⟩
    · exact fun w hw => filter_setPeerState_ne d1.peers peer w PeerState.Accepted hw
    · exact fun w hw => filter_setPeerState_ne d2.peers me w PeerState.Accepted hw

/-- Witness for C4 at a concrete mutually pending pair. -/
theorem c4_witness :
    ((∃ p ∈ (WalletDescriptor.mk [1] [⟨[2], PeerState.Requested⟩]).peers,
        p.wallet = [2] ∧ p.state = PeerState.Requested) ∧
     (∃ p ∈ (WalletDescriptor.mk [2] [⟨[1], PeerState.Invited⟩]).peers,
        p.wallet = [1] ∧ p.state = PeerState.Invited)) ∧
    (∃ r, accept [1] [2] (WalletDescriptor.mk [1] [⟨[2], PeerState.Requested⟩])
        (WalletDescriptor.mk [2] [⟨[1], PeerState.Invited⟩]) = Except.ok r) :=
  ⟨⟨by decide, by decide⟩,
   (c4_accept_spec [1] [2] (WalletDescriptor.mk [1] [⟨[2], PeerState.Requested⟩])
      (WalletDescriptor.mk [2] [⟨[1], PeerState.Invited⟩])).1.mp
     ⟨by decide, by decide⟩⟩

/-- Claim C6: for any pair with existing peer entries on both sides in
any states, `block` followed by `unblock` succeeds and leaves both
entries in state `Rejected` — never the pre-block states. -/
theorem c6_block_unblock (S C : Identity) (d1 d2 : WalletDescriptor)
    (h1 : ∃ p ∈ d1.peers, p.wallet = C) (h2 : ∃ p ∈ d2.peers, p.wallet = S) :
    ∃ d1' d2' d1'' d2'',
      block S C d1 d2 = Except.ok (d1', d2') ∧
      unblock S C d1' d2' = Except.ok (d1'', d2'') ∧
      findPeer d1''.peers C = some ⟨C, PeerState.Rejected⟩ ∧
      findPeer d2''.peers S = some ⟨S, PeerState.Rejected⟩ := by
  have hb1 : d1.peers.any (fun p => decide (p.wallet = C)) = true := by
    simpa using h1
  have hb2 : d2.peers.any (fun p => decide (p.wallet = S)) = true := by
    simpa using h2
  have hblock : block S C d1 d2 = Except.ok
      (⟨d1.owner, setPeerState d1.peers C PeerState.Blocked⟩,
       ⟨d2.owner, setPeerState d2.peers S PeerState.Blocked⟩) := by
    unfold block
    rw [if_pos hb1, if_pos hb2]
  have hf1 : findPeer (setPeerState d1.peers C PeerState.Blocked) C =
      some ⟨C, PeerState.Blocked⟩ :=
    findPeer_setPeerState_self d1.peers C PeerState.Blocked h1
  have hf2 : findPeer (setPeerState d2.peers S PeerState.Blocked) S =
      some ⟨S, PeerState.Blocked⟩ :=
    findPeer_setPeerState_self d2.peers S PeerState.Blocked h2
  have hm1 : (⟨C, PeerState.Blocked⟩ : Peer) ∈ setPeerState d1.peers C PeerState.Blocked :=
    (findPeer_some _ _ _ hf1).1
  have hm2 : (⟨S, PeerState.Blocked⟩ : Peer) ∈ setPeerState d2.peers S PeerState.Blocked :=
    (findPeer_some _ _ _ hf2).1
  have hu1 : (setPeerState d1.peers C PeerState.Blocked).any
      (fun p => decide (p.wallet = C ∧ p.state = PeerState.Blocked)) = true :=
    List.any_eq_true.mpr ⟨⟨C, PeerState.Blocked⟩, hm1, by simp⟩
  have hu2 : (setPeerState d2.peers S PeerState.Blocked).any
      (fun p => decide (p.wallet = S ∧ p.state = PeerState.Blocked)) = true :=
    List.any_eq_true.mpr ⟨⟨S, PeerState.Blocked⟩, hm2, by simp⟩
  have hunblock : unblock S C
      (⟨d1.owner, setPeerState d1.peers C PeerState.Blocked⟩ : WalletDescriptor)
      (⟨d2.owner, setPeerState d2.peers S PeerState.Blocked⟩ : WalletDescriptor) =
      Except.ok
        (⟨d1.owner, setPeerState (setPeerState d1.peers C PeerState.Blocked) C
           PeerState.Rejected⟩,
         ⟨d2.owner, setPeerState (setPeerState d2.peers S PeerState.Blocked) S
           PeerState.Rejected⟩) := by
    unfold unblock
    rw [if_pos hu1, if_pos hu2]
  refine ⟨_, _, _, _, hblock, hunblock, ?_, ?_⟩
  · exact findPeer_setPeerState_self _ C PeerState.Rejected ⟨_, hm1, rfl⟩
  · exact findPeer_setPeerState_self _ S PeerState.Rejected ⟨_, hm2, rfl⟩

/-- Witness for C6 at a concrete mutually accepted pair. -/
theorem c6_witness :
    (∃ p ∈ (WalletDescriptor.mk [1] [⟨[2], PeerState.Accepted⟩]).peers, p.wallet = [2]) ∧
    (∃ p ∈ (WalletDescriptor.mk [2] [⟨[1], PeerState.Accepted⟩]).peers, p.wallet = [1]) ∧
    (∃ d1' d2' d1'' d2'',
      block [1] [2] (WalletDescriptor.mk [1] [⟨[2], PeerState.Accepted⟩])
          (WalletDescriptor.mk [2] [⟨[1], PeerState.Accepted⟩]) = Except.ok (d1', d2') ∧
      unblock [1] [2] d1' d2' = Except.ok (d1'', d2'') ∧
      findPeer d1''.peers [2] = some ⟨[2], PeerState.Rejected⟩ ∧
      findPeer d2''.peers [1] = some ⟨[1], PeerState.Rejected⟩) :=
  ⟨by decide, by decide,
   c6_block_unblock [1] [2] (WalletDescriptor.mk [1] [⟨[2], PeerState.Accepted⟩])
     (WalletDescriptor.mk [2] [⟨[1], PeerState.Accepted⟩]) (by decide) (by decide)⟩

/-- Claim C3: whenever `invite(S,C)` succeeds, the inviter's entry for
the invitee is `Invited`, the invitee's entry for the inviter is
`Requested`, and the conversation record is rewritten on that same
call: its participants become the pair `(S,C)` and its `created_at`
becomes the current timestamp — on every successful invite, re-invites
of previously `Rejected` pairs included. -/
theorem c3_invite_success (S C : Identity) (sh : List Nat)
    (d1 d2 : WalletDescriptor) (now : Int)
    (d1' d2' : WalletDescriptor) (conv' : Conversation)
    (h : invite S C sh d1 d2 now = Except.ok (d1', d2', conv')) :
    findPeer d1'.peers C = some ⟨C, PeerState.Invited⟩ ∧
    findPeer d2'.peers S = some ⟨S, PeerState.Requested⟩ ∧
    conv'.participants = (S, C) ∧ conv'.created_at = now := by
  unfold invite at h
  by_cases hh : get_chat_hash S C = sh
  case neg =>
    rw [if_neg hh] at h
    exact Except.noConfusion h
  rw [if_pos hh] at h
  rcases hs1 : inviteSide d1.peers C PeerState.Invited with e1 | P1 <;> rw [hs1] at h
  · exact Except.noConfusion h
  rcases hs2 : inviteSide (initInvitee C d2).peers S PeerState.Requested
    with e2 | P2 <;> rw [hs2] at h
  · exact Except.noConfusion h
  injection h with h3
  rw [Prod.mk.injEq, Prod.mk.injEq] at h3
  obtain ⟨h4, h5, h6⟩ := h3
  subst h4
  subst h5
  subst h6
  exact ⟨findPeer_inviteSide _ _ _ _ hs1, findPeer_inviteSide _ _ _ _ hs2, rfl, rfl⟩

/-- Witness for C3: a fresh pair (empty inviter list, uninitialised
invitee account) is successfully invited. -/
theorem c3_witness :
    invite [1] [2] (get_chat_hash [1] [2]) (WalletDescriptor.mk [1] [])
        (WalletDescriptor.mk defaultPubkey []) 5 =
      Except.ok (WalletDescriptor.mk [1] [⟨[2], PeerState.Invited⟩],
                 WalletDescriptor.mk [2] [⟨[1], PeerState.Requested⟩],
                 Conversation.mk ([1], [2]) 5) ∧
    (findPeer (WalletDescriptor.mk [1] [⟨[2], PeerState.Invited⟩]).peers [2] =
       some ⟨[2], PeerState.Invited⟩ ∧
     findPeer (WalletDescriptor.mk [2] [⟨[1], PeerState.Requested⟩]).peers [1] =
       some ⟨[1], PeerState.Requested⟩ ∧
     (Conversation.mk ([1], [2]) 5).participants = ([1], [2]) ∧
     (Conversation.mk ([1], [2]) 5).created_at = 5) := by
  have h : invite [1] [2] (get_chat_hash [1] [2]) (WalletDescriptor.mk [1] [])
      (WalletDescriptor.mk defaultPubkey []) 5 =
      Except.ok (WalletDescriptor.mk [1] [⟨[2], PeerState.Invited⟩],
                 WalletDescriptor.mk [2] [⟨[1], PeerState.Requested⟩],
                 Conversation.mk ([1], [2]) 5) := by
    unfold invite initInvitee inviteSide findPeer
    rw [if_pos rfl, if_pos rfl]
    rfl
  exact ⟨h, c3_invite_success [1] [2] (get_chat_hash [1] [2]) _ _ 5 _ _ _ h⟩

/-- Claim C5: when either side's entry for the other is `Blocked`,
`invite(S,C)` (called with the correct chat hash, on an initialised
invitee account) fails with `AlreadyInvited`, regardless of which side
holds the block and of the other side's state. -/
theorem c5_invite_blocked (S C : Identity) (d1 d2 : WalletDescriptor) (now : Int)
    (howner : d2.owner ≠ defaultPubkey)
    (h : (∃ p, findPeer d1.peers C = some p ∧ p.state = PeerState.Blocked) ∨
         (∃ p, findPeer d2.peers S = some p ∧ p.state = PeerState.Blocked)) :
    invite S C (get_chat_hash S C) d1 d2 now =
      Except.error ErrorCode.AlreadyInvited := by
  have hinit : initInvitee C d2 = d2 := if_neg howner
  unfold invite
  rw [if_pos rfl, hinit]
  rcases h with ⟨p, hf, hs⟩ | ⟨p, hf, hs⟩
  · rw [inviteSide_existing d1.peers C PeerState.Invited p hf
      (by rw [hs]; exact fun hx => PeerState.noConfusion hx)]
  · rcases hs1 : inviteSide d1.peers C PeerState.Invited with e1 | P1
    · have he : e1 = ErrorCode.AlreadyInvited :=
        inviteSide_error d1.peers C PeerState.Invited e1 hs1
      subst he
      rfl
    · rw [inviteSide_existing d2.peers S PeerState.Requested p hf
        (by rw [hs]; exact fun hx => PeerState.noConfusion hx)]

/-- Witness for C5: a mutually blocked concrete pair. -/
theorem c5_witness :
    (WalletDescriptor.mk [2] [⟨[1], PeerState.Blocked⟩]).owner ≠ defaultPubkey ∧
    ((∃ p, findPeer (WalletDescriptor.mk [1] [⟨[2], PeerState.Blocked⟩]).peers [2] =
        some p ∧ p.state = PeerState.Blocked) ∨
     (∃ p, findPeer (WalletDescriptor.mk [2] [⟨[1], PeerState.Blocked⟩]).peers [1] =
        some p ∧ p.state = PeerState.Blocked)) ∧
    invite [1] [2] (get_chat_hash [1] [2])
        (WalletDescriptor.mk [1] [⟨[2], PeerState.Blocked⟩])
        (WalletDescriptor.mk [2] [⟨[1], PeerState.Blocked⟩]) 0 =
      Except.error ErrorCode.AlreadyInvited :=
  ⟨by decide, Or.inl ⟨⟨[2], PeerState.Blocked⟩, rfl, rfl⟩,
   c5_invite_blocked [1] [2] (WalletDescriptor.mk [1] [⟨[2], PeerState.Blocked⟩])
     (WalletDescriptor.mk [2] [⟨[1], PeerState.Blocked⟩]) 0 (by decide)
     (Or.inl ⟨⟨[2], PeerState.Blocked⟩, rfl, rfl⟩)⟩

/-- Claim C2: whenever an operation of the core (invite, accept,
reject, block, unblock, or a group operation) returns an error, the
committed state of every record it touches is exactly the pre-call
state; in particular an `invite(S,C)` failing `AlreadyInvited` because
of the invitee-side entry leaves the inviter's peer list unchanged,
even when the inviter-side entry was absent or `Rejected`. -/
theorem c2_error_no_mutation :
    (∀ (S C : Identity) (sh : List Nat) (d1 d2 : WalletDescriptor) (now : Int)
       (prev : WalletDescriptor × WalletDescriptor × Conversation) (e : ErrorCode),
       invite S C sh d1 d2 now = Except.error e →
       commitE (invite S C sh d1 d2 now) prev = prev) ∧
    (∀ (me peer : Identity) (d1 d2 : WalletDescriptor)
       (prev : WalletDescriptor × WalletDescriptor) (e : ErrorCode),
       accept me peer d1 d2 = Except.error e →
       commitE (accept me peer d1 d2) prev = prev) ∧
    (∀ (me peer : Identity) (d1 d2 : WalletDescriptor)
       (prev : WalletDescriptor × WalletDescriptor) (e : ErrorCode),
       reject me peer d1 d2 = Except.error e →
       commitE (reject me peer d1 d2) prev = prev) ∧
    (∀ (me peer : Identity) (d1 d2 : WalletDescriptor)
       (prev : WalletDescriptor × WalletDescriptor) (e : ErrorCode),
       block me peer d1 d2 = Except.error e →
       commitE (block me peer d1 d2) prev = prev) ∧
    (∀ (me peer : Identity) (d1 d2 : WalletDescriptor)
       (prev : WalletDescriptor × WalletDescriptor) (e : ErrorCode),
       unblock me peer d1 d2 = Except.error e →
       commitE (unblock me peer d1 d2) prev = prev) ∧
    (∀ (op : GroupOp) (st : GroupState) (e : ErrorCode),
       applyGroupOp op st = Except.error e → runGroupOp op st = st) ∧
    (∀ (S C : Identity) (d1 d2 : WalletDescriptor) (now : Int) (p : Peer),
       d2.owner ≠ defaultPubkey →
       (findPeer d1.peers C = none ∨
        ∃ q, findPeer d1.peers C = some q ∧ q.state = PeerState.Rejected) →
       findPeer d2.peers S = some p → p.state ≠ PeerState.Rejected →
       invite S C (get_chat_hash S C) d1 d2 now =
         Except.error ErrorCode.AlreadyInvited ∧
       ∀ conv : Conversation,
         commitE (invite S C (get_chat_hash S C) d1 d2 now) (d1, d2, conv) =
           (d1, d2, conv)) := by
  refine ⟨?_, ?_, ?_, ?_, ?_, ?_, ?_⟩
  · intro S C sh d1 d2 now prev e h
    rw [h]
    rfl
  · intro me peer d1 d2 prev e h
    rw [h]
    rfl
  · intro me peer d1 d2 prev e h
    rw [h]
    rfl
  · intro me peer d1 d2 prev e h
    rw [h]
    rfl
  · intro me peer d1 d2 prev e h
    rw [h]
    rfl
  · intro op st e h
    rw [runGroupOp, h]
    rfl
  · intro S C d1 d2 now p howner hinviter hf hs
    have hinit : initInvitee C d2 = d2 := if_neg howner
    obtain ⟨P1, hs1⟩ := inviteSide_pass d1.peers C PeerState.Invited hinviter
    have herr : invite S C (get_chat_hash S C) d1 d2 now =
        Except.error ErrorCode.AlreadyInvited := by
      unfold invite
      rw [if_pos rfl, hinit, hs1,
        inviteSide_existing d2.peers S PeerState.Requested p hf hs]
    refine ⟨herr, fun conv => ?_⟩
    rw [herr]
    rfl

/-- Witness for C2: the invitee-side `Accepted` entry aborts the
invite with `AlreadyInvited` and the committed records are unchanged,
although the inviter side (absent entry) had passed. -/
theorem c2_witness :
    (WalletDescriptor.mk [2] [⟨[1], PeerState.Accepted⟩]).owner ≠ defaultPubkey ∧
    findPeer (WalletDescriptor.mk [1] []).peers [2] = none ∧
    findPeer (WalletDescriptor.mk [2] [⟨[1], PeerState.Accepted⟩]).peers [1] =
      some ⟨[1], PeerState.Accepted⟩ ∧
    (Peer.mk [1] PeerState.Accepted).state ≠ PeerState.Rejected ∧
    (invite [1] [2] (get_chat_hash [1] [2]) (WalletDescriptor.mk [1] [])
        (WalletDescriptor.mk [2] [⟨[1], PeerState.Accepted⟩]) 0 =
      Except.error ErrorCode.AlreadyInvited ∧
     ∀ conv : Conversation,
       commitE (invite [1] [2] (get_chat_hash [1] [2]) (WalletDescriptor.mk [1] [])
           (WalletDescriptor.mk [2] [⟨[1], PeerState.Accepted⟩]) 0)
         (WalletDescriptor.mk [1] [],
          WalletDescriptor.mk [2] [⟨[1], PeerState.Accepted⟩], conv) =
       (WalletDescriptor.mk [1] [],
        WalletDescriptor.mk [2] [⟨[1], PeerState.Accepted⟩], conv)) :=
  ⟨by decide, rfl, rfl, by decide,
   c2_error_no_mutation.2.2.2.2.2.2 [1] [2] (WalletDescriptor.mk [1] [])
     (WalletDescriptor.mk [2] [⟨[1], PeerState.Accepted⟩]) 0
     ⟨[1], PeerState.Accepted⟩ (by decide) (Or.inl rfl) rfl (by decide)⟩

/-- Claim C7 (amended): every group state reachable from `create_group`
by group operations has at most 30 members, no duplicate member, and
the creator among the members; `leave_group` by the creator always
fails `CannotRemoveCreator`; `kick_member` targeting the creator
always fails — with `CannotRemoveCreator` when the caller is the
creator and with `NotGroupAdmin` when the caller is anyone else — so
the creator can never be removed. -/
theorem c7_group_invariant (st : GroupState) (h : ReachableGroup st) :
    (st.group.members.length ≤ 30 ∧ st.group.members.Nodup ∧
     st.group.creator ∈ st.group.members) ∧
    leave_group st.group.creator st = Except.error ErrorCode.CannotRemoveCreator ∧
    kick_member st.group.creator st.group.creator st =
      Except.error ErrorCode.CannotRemoveCreator ∧
    (∀ caller, caller ≠ st.group.creator →
      kick_member caller st.group.creator st =
        Except.error ErrorCode.NotGroupAdmin) := by
  obtain ⟨h1, h2, h3, _⟩ := reachable_groupInv st h
  refine ⟨⟨h1, h2, h3⟩, ?_, ?_, ?_⟩
  · unfold leave_group
    rw [if_pos rfl]
  · unfold kick_member
    rw [if_pos rfl, if_pos rfl]
  · intro caller hc
    unfold kick_member
    rw [if_neg (fun he => hc he.symm)]

/-- Counterexample for C7 as stated: in a freshly created group with
creator `[1]`, a `kick_member` called by the non-creator `[2]` and
targeting the creator fails with `NotGroupAdmin`, not with
`CannotRemoveCreator`. -/
theorem c7_counterexample :
    ReachableGroup ⟨Group.mk [9] [1] [] 0 [[1]] [7] none, fun _ => none⟩ ∧
    kick_member [2] [1] ⟨Group.mk [9] [1] [] 0 [[1]] [7] none, fun _ => none⟩ =
      Except.error ErrorCode.NotGroupAdmin ∧
    ErrorCode.NotGroupAdmin ≠ ErrorCode.CannotRemoveCreator :=
  ⟨ReachableGroup.init [1] [9] [] [7] none 0 (Group.mk [9] [1] [] 0 [[1]] [7] none) rfl,
   rfl, by decide⟩

/-- Witness for C7 at a concrete freshly created group. -/
theorem c7_witness :
    ReachableGroup ⟨Group.mk [8] [3] [] 0 [[3]] [7] none, fun _ => none⟩ ∧
    (((Group.mk [8] [3] [] 0 [[3]] [7] none).members.length ≤ 30 ∧
      (Group.mk [8] [3] [] 0 [[3]] [7] none).members.Nodup ∧
      (Group.mk [8] [3] [] 0 [[3]] [7] none).creator ∈
        (Group.mk [8] [3] [] 0 [[3]] [7] none).members) ∧
     leave_group (Group.mk [8] [3] [] 0 [[3]] [7] none).creator
         ⟨Group.mk [8] [3] [] 0 [[3]] [7] none, fun _ => none⟩ =
       Except.error ErrorCode.CannotRemoveCreator ∧
     kick_member (Group.mk [8] [3] [] 0 [[3]] [7] none).creator
         (Group.mk [8] [3] [] 0 [[3]] [7] none).creator
         ⟨Group.mk [8] [3] [] 0 [[3]] [7] none, fun _ => none⟩ =
       Except.error ErrorCode.CannotRemoveCreator ∧
     (∀ caller, caller ≠ (Group.mk [8] [3] [] 0 [[3]] [7] none).creator →
       kick_member caller (Group.mk [8] [3] [] 0 [[3]] [7] none).creator
           ⟨Group.mk [8] [3] [] 0 [[3]] [7] none, fun _ => none⟩ =
         Except.error ErrorCode.NotGroupAdmin)) :=
  ⟨ReachableGroup.init [3] [8] [] [7] none 0 (Group.mk [8] [3] [] 0 [[3]] [7] none) rfl,
   c7_group_invariant ⟨Group.mk [8] [3] [] 0 [[3]] [7] none, fun _ => none⟩
     (ReachableGroup.init [3] [8] [] [7] none 0
       (Group.mk [8] [3] [] 0 [[3]] [7] none) rfl)⟩

end Mukon
